import Mathlib

/-!
Verification of the retrieval-and-patch subsystem and the frontend helpers of
the writers-room-xx repository.

Source-backed definitions are shallow embeddings of the TypeScript under
`src/frontend/src` (the `Frontend` namespace).  The Python core (chunker,
retrieval, diff engine, patch history) is described by the specification but
its implementation files are not part of the repository snapshot, so those
components are modelled from the spec (the `Chunker`, `RAG`, `DiffEngine` and
`PatchHistory` namespaces); each such definition carries a doc comment saying
so.
-/

namespace StringOps

/-- Auxiliary for `splitOnChar`: split a character list at every occurrence
of `c`; the final group is always present, so the result is non-empty. -/
def splitCharAux (c : Char) : List Char → List (List Char)
  | [] => [[]]
  | a :: as =>
    match splitCharAux c as with
    | [] => [[]]
    | g :: gs => if a = c then [] :: g :: gs else (a :: g) :: gs

/-- Split a string at every occurrence of the character `c`
(JavaScript `s.split(c)` / Python `s.split(c)` semantics: `""` gives
`[""]`, a trailing separator gives a trailing `""`). -/
def splitOnChar (c : Char) (s : String) : List String :=
  (splitCharAux c s.data).map fun cs => String.mk cs

/-- `pre` occurs at the start of `s` (character lists). -/
def listStarts : List Char → List Char → Bool
  | _, [] => true
  | [], _ :: _ => false
  | a :: s, b :: pre => a = b && listStarts s pre

/-- `s` starts with `pre`. -/
def strStarts (s pre : String) : Bool :=
  listStarts s.data pre.data

/-- `s` ends with `post`. -/
def strEnds (s post : String) : Bool :=
  listStarts s.data.reverse post.data.reverse

/-- `pat` occurs somewhere inside `s` (character lists). -/
def listContains (pat : List Char) : List Char → Bool
  | [] => listStarts [] pat
  | c :: cs => listStarts (c :: cs) pat || listContains pat cs

/-- JavaScript `String.prototype.includes`: substring containment. -/
def containsSub (s pat : String) : Bool :=
  listContains pat.data s.data

end StringOps

open StringOps

namespace Frontend

/-- Change classification used by the first `DiffViewer` implementation
(`src/frontend/src/components/DiffViewer.tsx`, `parseDiff`): the TypeScript
union `'add' | 'remove' | 'context'`. -/
inductive ChangeType where
  | add
  | remove
  | context
deriving DecidableEq, Repr

/-- One parsed diff line: `{type, content}` as pushed by `parseDiff`. -/
structure Change where
  type : ChangeType
  content : String
deriving DecidableEq, Repr

/-- The body of `parseDiff`'s per-line processing
(`DiffViewer.tsx` lines 35–47): file headers and hunk headers are skipped,
`+`/`-`/space lines are pushed with their first character removed, and
anything else is dropped. -/
def stepChange (changes : List Change) (line : String) : List Change :=
  if strStarts line "+++" || strStarts line "---" || strStarts line "@@" then
    changes
  else if strStarts line "+" then
    changes ++ [⟨ChangeType.add, line.drop 1⟩]
  else if strStarts line "-" then
    changes ++ [⟨ChangeType.remove, line.drop 1⟩]
  else if strStarts line " " then
    changes ++ [⟨ChangeType.context, line.drop 1⟩]
  else
    changes

/-- `parseDiff` from `src/frontend/src/components/DiffViewer.tsx` (lines
31–50): split the diff text on newlines and fold the per-line step over the
lines, starting from an empty list of changes. -/
def parseDiff (diffText : String) : List Change :=
  let lines := splitOnChar '\n' diffText
  lines.foldl stepChange []

/-- Per-line classification as the specification of `parseDiff` phrases it:
lines beginning with `+++`, `---` or `@@` are skipped; a remaining line
beginning with `+` is an addition, with `-` a removal, with a space a context
line, each carrying the line minus its first character; any other line yields
nothing. -/
def classifyLine (line : String) : Option Change :=
  if strStarts line "+++" || strStarts line "---" || strStarts line "@@" then
    none
  else if strStarts line "+" then
    some ⟨ChangeType.add, line.drop 1⟩
  else if strStarts line "-" then
    some ⟨ChangeType.remove, line.drop 1⟩
  else if strStarts line " " then
    some ⟨ChangeType.context, line.drop 1⟩
  else
    none

/-- Row classification of the second `DiffViewer` implementation
(`DiffViewer.tsx`, `generateSideBySide`): `'add' | 'delete' | 'modify' |
'equal'`. -/
inductive RowType where
  | add
  | delete
  | modify
  | equal
deriving DecidableEq, Repr

/-- One side-by-side row: `{left, right, type}`. -/
structure DiffLine where
  left : String
  right : String
  type : RowType
deriving DecidableEq, Repr

/-- The type computation inside `generateSideBySide` (`DiffViewer.tsx` lines
197–206).  JavaScript truthiness of a string is non-emptiness, so
`if (leftLine && rightLine)` becomes the conjunction of the two
non-emptiness tests. -/
def rowType (leftLine rightLine : String) : RowType :=
  if leftLine = rightLine then
    RowType.equal
  else if leftLine ≠ "" ∧ rightLine ≠ "" then
    RowType.modify
  else if leftLine ≠ "" then
    RowType.delete
  else
    RowType.add

/-- `generateSideBySide` from `src/frontend/src/components/DiffViewer.tsx`
(lines 186–212): split both texts on newlines, iterate `i` from `0` to
`max` of the two lengths, pairing line `i` of each side (empty string past
the end) and classifying the pair. -/
def generateSideBySide (originalText modifiedText : String) : List DiffLine :=
  let originalLines := splitOnChar '\n' originalText
  let modifiedLines := splitOnChar '\n' modifiedText
  let maxLines := max originalLines.length modifiedLines.length
  (List.range maxLines).map fun i =>
    let leftLine := originalLines.getD i ""
    let rightLine := modifiedLines.getD i ""
    ⟨leftLine, rightLine, rowType leftLine rightLine⟩

/-- The stats footer of `DiffViewer` (lines 354–370) counts rows by type with
`diffLines.filter(l => l.type === t).length`. -/
def countRows (rows : List DiffLine) (t : RowType) : Nat :=
  (rows.filter fun l => l.type = t).length

/-- The part of an HTTP `Response` that `ApiClient.request`
(`src/frontend/src/lib/api.ts` lines 45–64) inspects: `ok`, `status`, the
body text, and whether the `content-type` header says JSON. -/
structure ApiResponse where
  ok : Bool
  status : Nat
  body : String
  contentTypeJson : Bool
deriving DecidableEq, Repr

/-- A resolved value of `ApiClient.request`: either the parsed JSON body or
the raw text body. -/
inductive ApiValue where
  | jsonBody (body : String)
  | textBody (body : String)
deriving DecidableEq, Repr

/-- The response-handling tail of `ApiClient.request`
(`src/frontend/src/lib/api.ts` lines 53–64): a non-ok response throws
`` `API Error ${status}: ${errorText}` ``; an ok response resolves with the
JSON body when the content type is JSON and with the text body otherwise. -/
def request (r : ApiResponse) : Except String ApiValue :=
  if r.ok = false then
    Except.error ("API Error " ++ toString r.status ++ ": " ++ r.body)
  else if r.contentTypeJson then
    Except.ok (ApiValue.jsonBody r.body)
  else
    Except.ok (ApiValue.textBody r.body)

/-- Upload outcome status of `FileUpload.handleFiles`
(`src/unnamed/part_009`): `'success' | 'error'`. -/
inductive UploadStatus where
  | success
  | error
deriving DecidableEq, Repr

/-- One entry of the `results` array pushed by `handleFiles`. -/
structure UploadResult where
  filename : String
  status : UploadStatus
  message : String
deriving DecidableEq, Repr

/-- One call to `api.post` made by `handleFiles`: the endpoint and the two
form fields (`file`, `file_type`). -/
structure PostRequest where
  endpoint : String
  filename : String
  fileType : String
deriving DecidableEq, Repr

/-- `FileUpload.handleFiles` (`src/unnamed/part_009` lines 20–70), as a pure
function of the file names and an oracle giving the error message of each
`api.post` call (`none` means the post succeeded).  Returns the `results`
array together with the list of posts that were sent.  A non-`.md` file gets
an error result and is never posted; a `.md` file is posted to
`/ingest/upload` with `file_type` `'codex'` when its name contains
`"codex"` and `'manuscript'` otherwise. -/
def handleFiles (postErr : String → Option String) :
    List String → List UploadResult × List PostRequest
  | [] => ([], [])
  | name :: rest =>
    let (results, posts) := handleFiles postErr rest
    if strEnds name ".md" then
      let fileType := if containsSub name "codex" then "codex" else "manuscript"
      let result :=
        match postErr name with
        | none => UploadResult.mk name UploadStatus.success
            ("Uploaded as " ++ fileType ++ " file")
        | some msg => UploadResult.mk name UploadStatus.error msg
      (result :: results, PostRequest.mk "/ingest/upload" name fileType :: posts)
    else
      (UploadResult.mk name UploadStatus.error "Only .md files are supported" :: results,
        posts)

end Frontend

namespace DiffEngine

/-- Length of the longest common prefix of two line lists. -/
def commonPrefixLen : List String → List String → Nat
  | a :: as, b :: bs => if a = b then commonPrefixLen as bs + 1 else 0
  | _, _ => 0

/-- Length of the longest common suffix of two line lists. -/
def commonSuffixLen (as bs : List String) : Nat :=
  commonPrefixLen as.reverse bs.reverse

/-- Modelled from the spec: one hunk of a unified diff produced by
`make_diff` (`api/app/utils/diff.py` is not in the repository snapshot).
`pos` is the 0-based line offset of the change in the original, `olds` the
lines the hunk expects to find there (its anchor), `news` the replacement
lines.  The textual unified-diff serialization is represented structurally. -/
structure Hunk where
  pos : Nat
  olds : List String
  news : List String
deriving DecidableEq, Repr

/-- Modelled from the spec: a diff is a sequence of hunks; the empty list is
the empty diff. -/
def Diff := List Hunk

instance : DecidableEq Diff := by
  unfold Diff
  infer_instance

instance : Repr Diff := by
  unfold Diff
  infer_instance

instance : Membership Hunk Diff := by
  unfold Diff
  infer_instance

instance : Append Diff := by
  unfold Diff
  infer_instance

/-- Modelled from the spec: `make_diff(original, revised)` over line lists
(unified diffs are line based, so a text is represented by its sequence of
lines).  The changed region is the part strictly between the longest common
prefix and the longest common suffix of the two texts; when that region is
empty on both sides the diff is empty. -/
def make_diff (original revised : List String) : Diff :=
  let p := commonPrefixLen original revised
  let a := original.drop p
  let b := revised.drop p
  let s := commonSuffixLen a b
  let olds := a.take (a.length - s)
  let news := b.take (b.length - s)
  if olds = [] ∧ news = [] then [] else [⟨p, olds, news⟩]

/-- Modelled from the spec: the typed patch failures of the diff engine. -/
inductive PatchError where
  | anchorNotFound
  | ambiguousAnchor
deriving DecidableEq, Repr

/-- The `n` lines of `content` starting at 0-based position `p`. -/
def sliceAt (content : List String) (p n : Nat) : List String :=
  (content.drop p).take n

/-- Number of positions at which the two line lists agree. -/
def eqCount : List String → List String → Nat
  | a :: as, b :: bs => (if a = b then 1 else 0) + eqCount as bs
  | _, _ => 0

/-- Modelled from the spec: similarity score (in percent) between a hunk's
anchor and a candidate slice of the file, a bounded sliding-window proxy for
the approximate string matching the spec calls for. -/
def score (anchor slice : List String) : Nat :=
  if anchor.length = 0 then 100 else 100 * eqCount anchor slice / anchor.length

/-- Modelled from the spec: fuzzy-match acceptance threshold (percent).  The
spec leaves the constant open; it is fixed here and documented. -/
def threshold : Nat := 60

/-- Modelled from the spec: half-width of the search window for fuzzy
re-anchoring, in lines. -/
def window : Nat := 5

/-- Modelled from the spec: locate a hunk's anchor in `content`.  Exact mode
first: the recorded offset is used when the anchor matches there verbatim.
Otherwise fuzzy mode scores every position in a bounded window around the
recorded offset; the best score wins only if it reaches `threshold`
(`AnchorNotFoundError` otherwise) and is achieved at exactly one position
(`AmbiguousAnchorError` otherwise — fail closed, never guess). -/
def locateHunk (content : List String) (h : Hunk) : Except PatchError Nat :=
  if sliceAt content h.pos h.olds.length = h.olds then
    Except.ok h.pos
  else
    let lo := h.pos - window
    let hi := min (h.pos + window) content.length
    let cands := (List.range (hi + 1 - lo)).map (lo + ·)
    let scored := cands.map fun p => (p, score h.olds (sliceAt content p h.olds.length))
    let best := scored.foldl (fun acc x => max acc x.2) 0
    if best < threshold then
      Except.error PatchError.anchorNotFound
    else
      match scored.filter fun x => x.2 = best with
      | [x] => Except.ok x.1
      | _ => Except.error PatchError.ambiguousAnchor

/-- Modelled from the spec: apply one hunk at its located position, replacing
the anchor lines with the replacement lines. -/
def applyHunk (content : List String) (h : Hunk) : Except PatchError (List String) :=
  (locateHunk content h).map fun p =>
    content.take p ++ h.news ++ content.drop (p + h.olds.length)

/-- Modelled from the spec: `apply(file_content, diff)` over line lists.
Hunks are applied in sequence; the first hunk that cannot be located aborts
the whole application with its error. -/
def apply (content : List String) : Diff → Except PatchError (List String)
  | [] => Except.ok content
  | h :: hs => do
    let c ← applyHunk content h
    apply c hs

/-- `make_diff` on document text: split into lines on newlines. -/
def make_diff_text (original revised : String) : Diff :=
  make_diff (splitOnChar '\n' original) (splitOnChar '\n' revised)

/-- `apply` on document text: split into lines, apply, and rejoin. -/
def apply_text (content : String) (d : Diff) : Except PatchError String :=
  (apply (splitOnChar '\n' content) d).map (String.intercalate "\n")

/-- Modelled from the spec: a Document is an immutable-by-version text blob
with a stable id and a monotonic version counter. -/
structure Document where
  id : String
  raw_text : String
  version : Nat
deriving DecidableEq, Repr

/-- Modelled from the spec: applying a diff to a document.  On success the
document's text is replaced and its version advances; on failure the error is
surfaced and the document is returned unchanged — application is atomic from
the caller's perspective. -/
def applyToDocument (doc : Document) (d : Diff) :
    Document × Except PatchError String :=
  match apply_text doc.raw_text d with
  | Except.ok t => (⟨doc.id, t, doc.version + 1⟩, Except.ok t)
  | Except.error e => (doc, Except.error e)

end DiffEngine

namespace Chunker

/-- Modelled from the spec: the 1-indexed line view of a document's text
(`api/app/rag/chunker.py` is not in the repository snapshot).  Splitting on
newlines; a trailing newline does not open an extra empty line.  Empty text
has a single (empty) line, so chunking it yields a single chunk covering the
whole range. -/
def docLines (text : String) : List String :=
  let ps := splitOnChar '\n' text
  if strEnds text "\n" then ps.dropLast else ps

/-- Word-count proxy for token estimation: number of non-empty
space-separated words. -/
def wordCount (s : String) : Nat :=
  ((splitOnChar ' ' s).filter fun w => w ≠ "").length

/-- Greedy helper: how many further lines (given their word counts) fit in
the remaining token budget. -/
def fitCount (budget : Nat) : List Nat → Nat
  | [] => 0
  | w :: ws => if w ≤ budget ∧ 0 < w then fitCount (budget - w) ws + 1 else 0

/-- Number of lines in the next chunk: always at least one line, then
greedily as many further lines as fit under `maxTokens` words. -/
def chunkLen (maxTokens : Nat) : List Nat → Nat
  | [] => 0
  | w :: ws => fitCount (maxTokens - w) ws + 1

/-- Number of trailing lines of the finished chunk to repeat at the start of
the next chunk so that adjacent chunks overlap by roughly `stride` words;
capped below the chunk length so that chunking always advances. -/
def overlapLen (stride n : Nat) (ws : List Nat) : Nat :=
  min (fitCount stride (ws.take n).reverse) (n - 1)

/-- Modelled from the spec: the 0-based inclusive line ranges of the chunks
of a document whose lines have word counts `ws`, starting at line `i`.
`fuel` bounds the recursion (each step consumes at least one line). -/
def chunkRangesGo (maxTokens stride : Nat) : Nat → List Nat → Nat → List (Nat × Nat)
  | 0, _, _ => []
  | _ + 1, [], _ => []
  | fuel + 1, w :: ws, i =>
    let n := chunkLen maxTokens (w :: ws)
    let step := n - overlapLen stride n (w :: ws)
    (i, i + n - 1) :: chunkRangesGo maxTokens stride fuel ((w :: ws).drop step) (i + step)

/-- The 0-based inclusive chunk line ranges of a line list. -/
def chunkRanges (maxTokens stride : Nat) (lines : List String) : List (Nat × Nat) :=
  chunkRangesGo maxTokens stride lines.length (lines.map wordCount) 0

/-- Text of the 1-indexed inclusive line range `[s, e]` of `lines`. -/
def sliceLines (lines : List String) (s e : Nat) : String :=
  String.intercalate "\n" ((lines.drop (s - 1)).take (e + 1 - s))

/-- Modelled from the spec: a Chunk — a contiguous, line-addressed slice of
a document, with a `chunk_id` derived deterministically from the document id
and the sequence index, exact 1-indexed `start_line`/`end_line` into the
original text, the slice text, and a word-count token estimate. -/
structure Chunk where
  chunk_id : String
  document_id : String
  start_line : Nat
  end_line : Nat
  text : String
  token_estimate : Nat
deriving DecidableEq, Repr

/-- Modelled from the spec: `chunk(document_text, max_tokens, stride)`, here
taking the whole document so that `chunk_id` can be derived from the document
id.  Each chunk's text is the exact slice of the original document at its
recorded 1-indexed line range. -/
def chunkDoc (doc : DiffEngine.Document) (maxTokens stride : Nat) : List Chunk :=
  let lines := docLines doc.raw_text
  (chunkRanges maxTokens stride lines).enum.map fun (idx, r) =>
    { chunk_id := doc.id ++ "::" ++ toString idx
      document_id := doc.id
      start_line := r.1 + 1
      end_line := r.2 + 1
      text := sliceLines lines (r.1 + 1) (r.2 + 1)
      token_estimate := ((lines.drop r.1).take (r.2 + 1 - r.1)).foldl
        (fun a l => a + wordCount l) 0 }

end Chunker

namespace RAG

/-- Modelled from the spec: one record of the vector index — an embedding
vector plus metadata `{document_id, start_line, end_line}` and the chunk
text, keyed by `chunk_id` (`api/app/rag/chroma_client.py` and
`api/app/rag/retrieve.py` are not in the repository snapshot). -/
structure IndexRecord where
  id : String
  vector : List Int
  document_id : String
  start_line : Nat
  end_line : Nat
  text : String
deriving DecidableEq, Repr

/-- Modelled from the spec: `upsert` replaces by id — re-upserting an
existing id fully overwrites its record, otherwise the record is appended. -/
def upsert (recs : List IndexRecord) (r : IndexRecord) : List IndexRecord :=
  if recs.any fun x => x.id = r.id then
    recs.map fun x => if x.id = r.id then r else x
  else
    recs ++ [r]

/-- The index record of a chunk under a given embedder. -/
def recordOf (embedder : String → List Int) (c : Chunker.Chunk) : IndexRecord :=
  { id := c.chunk_id
    vector := embedder c.text
    document_id := c.document_id
    start_line := c.start_line
    end_line := c.end_line
    text := c.text }

/-- Modelled from the spec: build-time pipeline Chunker → Embedder →
VectorIndex: every document is chunked, every chunk embedded and upserted by
`chunk_id`. -/
def buildIndex (embedder : String → List Int) (maxTokens stride : Nat)
    (docs : List DiffEngine.Document) : List IndexRecord :=
  docs.foldl
    (fun recs doc =>
      (Chunker.chunkDoc doc maxTokens stride).foldl
        (fun recs c => upsert recs (recordOf embedder c)) recs)
    []

/-- Dot-product similarity between two integer vectors. -/
def dot (a b : List Int) : Int :=
  (a.zip b).foldl (fun s x => s + x.1 * x.2) 0

/-- Insert into a list sorted by descending score; insertion after equal
scores keeps the ranking stable (ties broken by insertion order). -/
def insertDesc (x : IndexRecord × Int) :
    List (IndexRecord × Int) → List (IndexRecord × Int)
  | [] => [x]
  | y :: ys => if y.2 < x.2 then x :: y :: ys else y :: insertDesc x ys

/-- Stable insertion sort by descending score. -/
def sortDesc : List (IndexRecord × Int) → List (IndexRecord × Int)
  | [] => []
  | x :: xs => insertDesc x (sortDesc xs)

/-- Modelled from the spec: `query(collection, query_vector, top_k,
filters)` — score every (optionally metadata-filtered) record, rank by
descending similarity with stable ties, return at most `top_k`. -/
def query (recs : List IndexRecord) (qv : List Int) (topK : Nat)
    (filterDoc : Option String) : List (IndexRecord × Int) :=
  let cands :=
    match filterDoc with
    | none => recs
    | some d => recs.filter fun r => r.document_id = d
  (sortDesc (cands.map fun r => (r, dot qv r.vector))).take topK

/-- Modelled from the spec: a Receipt — the unit returned by retrieval:
`{text, document_id, start_line, end_line, score}`, derived from exactly one
index record at query time. -/
structure Receipt where
  text : String
  document_id : String
  start_line : Nat
  end_line : Nat
  score : Int
deriving DecidableEq, Repr

/-- Modelled from the spec: `RetrievalService.retrieve(query, k, filters)` —
embed the query, query the vector index, and map each hit's metadata back to
a provenance-tagged Receipt carrying the original chunk text and the
similarity score. -/
def retrieve (embedder : String → List Int) (q : String) (k : Nat)
    (filterDoc : Option String) (recs : List IndexRecord) : List Receipt :=
  (query recs (embedder q) k filterDoc).map fun x =>
    { text := x.1.text
      document_id := x.1.document_id
      start_line := x.1.start_line
      end_line := x.1.end_line
      score := x.2 }

end RAG

namespace PatchHistory

/-- Modelled from the spec: a Patch — `{patch_id, document_id, base_version,
unified_diff, applied_at, commit_ref}` (`PatchHistory` is not in the
repository snapshot). -/
structure Patch where
  patch_id : String
  document_id : String
  base_version : Nat
  unified_diff : DiffEngine.Diff
  applied_at : Nat
  commit_ref : String
deriving DecidableEq, Repr

/-- Modelled from the spec: the version-conflict failure of
`PatchHistory.record`. -/
inductive VersionConflictError where
  | conflict
deriving DecidableEq, Repr

/-- Modelled from the spec: the persisted patch-history state — the ordered,
append-only sequence of recorded patches plus the current version of each
document (an association list; absent documents are at version 0). -/
structure HistoryState where
  patches : List Patch
  versions : List (String × Nat)
deriving DecidableEq, Repr

/-- Current version of a document. -/
def currentVersion (st : HistoryState) (docId : String) : Nat :=
  (st.versions.lookup docId).getD 0

/-- Set a document's version. -/
def setVersion (vs : List (String × Nat)) (docId : String) (v : Nat) :
    List (String × Nat) :=
  (docId, v) :: vs.filter fun x => x.1 ≠ docId

/-- Modelled from the spec: `record(document_id, patch)` — appends the patch
to the history and advances the document's version, but rejects with
`VersionConflictError` when `patch.base_version` differs from the document's
current version, leaving the state untouched. -/
def record (st : HistoryState) (docId : String) (p : Patch) :
    HistoryState × Except VersionConflictError Patch :=
  if p.base_version ≠ currentVersion st docId then
    (st, Except.error VersionConflictError.conflict)
  else
    (⟨st.patches ++ [p], setVersion st.versions docId (p.base_version + 1)⟩,
      Except.ok p)

end PatchHistory

namespace DiffEngine

theorem commonPrefixLen_self (l : List String) : commonPrefixLen l l = l.length := by
  induction l with
  | nil => rfl
  | cons a as ih => simp [commonPrefixLen, ih]

end DiffEngine

namespace Frontend

theorem rowType_self (s : String) : rowType s s = RowType.equal := by
  simp [rowType]

theorem mem_generateSideBySide_self {t : String} {row : DiffLine}
    (h : row ∈ generateSideBySide t t) : row.type = RowType.equal := by
  simp only [generateSideBySide, List.mem_map] at h
  obtain ⟨i, _, rfl⟩ := h
  simp [rowType_self]

end Frontend

/-- C5: Diffing a text against itself yields no changes: `make_diff t t` is
the empty diff for every text, and `generateSideBySide t t` returns only
rows typed `equal`, so the reported counts of additions, deletions, and
modifications are all zero. -/
theorem diff_self_is_empty :
    (∀ t : List String, DiffEngine.make_diff t t = []) ∧
    (∀ t : String,
      (Frontend.generateSideBySide t t).all
        (fun row => row.type == Frontend.RowType.equal) = true ∧
      Frontend.countRows (Frontend.generateSideBySide t t) Frontend.RowType.add = 0 ∧
      Frontend.countRows (Frontend.generateSideBySide t t) Frontend.RowType.delete = 0 ∧
      Frontend.countRows (Frontend.generateSideBySide t t) Frontend.RowType.modify = 0) := by
  constructor
  · intro t
    simp [DiffEngine.make_diff, DiffEngine.commonPrefixLen_self,
      DiffEngine.commonSuffixLen, DiffEngine.commonPrefixLen]
  · intro t
    refine ⟨?_, ?_, ?_, ?_⟩
    · rw [List.all_eq_true]
      intro row hrow
      simp [Frontend.mem_generateSideBySide_self hrow]
    all_goals
      simp only [Frontend.countRows, List.length_eq_zero, List.filter_eq_nil_iff]
      intro row hrow
      simp [Frontend.mem_generateSideBySide_self hrow]

/-- C6: Backend failures surface as errors, never as empty results: a non-ok
response makes `ApiClient.request` fail with an error carrying the status
code and the response body text and never resolve with a value; only an ok
response can produce a returned value. -/
theorem request_error_propagation (r : Frontend.ApiResponse) :
    (r.ok = false →
      Frontend.request r =
        Except.error ("API Error " ++ toString r.status ++ ": " ++ r.body) ∧
      ∀ v, Frontend.request r ≠ Except.ok v) ∧
    (∀ v, Frontend.request r = Except.ok v → r.ok = true) := by
  constructor
  · intro hok
    simp [Frontend.request, hok]
  · intro v hv
    by_contra hok
    simp only [Bool.not_eq_true] at hok
    simp [Frontend.request, hok] at hv

/-- Witness for C6 at a concrete failed response. -/
theorem request_error_propagation_witness :
    Frontend.request ⟨false, 500, "boom", false⟩ =
      Except.error ("API Error " ++ toString (500 : Nat) ++ ": " ++ "boom") :=
  ((request_error_propagation ⟨false, 500, "boom", false⟩).1 rfl).1

/-- C4: Version conflict rejection: `PatchHistory.record` with a
`base_version` different from the document's current version fails with
`VersionConflictError` and leaves the history (and the whole state)
unchanged. -/
theorem record_version_conflict (st : PatchHistory.HistoryState) (docId : String)
    (p : PatchHistory.Patch)
    (h : p.base_version ≠ PatchHistory.currentVersion st docId) :
    (PatchHistory.record st docId p).2 =
      Except.error PatchHistory.VersionConflictError.conflict ∧
    (PatchHistory.record st docId p).1 = st ∧
    (PatchHistory.record st docId p).1.patches = st.patches := by
  simp [PatchHistory.record, h]

/-- Witness for C4 at a concrete stale patch. -/
theorem record_version_conflict_witness :
    (PatchHistory.record ⟨[], []⟩ "d" ⟨"p1", "d", 3, [], 0, ""⟩).2 =
      Except.error PatchHistory.VersionConflictError.conflict ∧
    (PatchHistory.record ⟨[], []⟩ "d" ⟨"p1", "d", 3, [], 0, ""⟩).1 = ⟨[], []⟩ ∧
    (PatchHistory.record ⟨[], []⟩ "d" ⟨"p1", "d", 3, [], 0, ""⟩).1.patches = [] :=
  record_version_conflict ⟨[], []⟩ "d" ⟨"p1", "d", 3, [], 0, ""⟩ (by decide)

/-- C7: Concrete chunk-and-patch scenario: chunking `"L1\nL2\nL3\nL4\nL5\n"`
with `max_tokens = 2` words and `stride = 0` yields exactly three chunks
covering line ranges `[1,2]`, `[3,4]`, `[5,5]`; `make_diff` against the
revision replaces `"L3\nL4"` with `"L3x\nL4x"`, and applying that diff to
the original document yields exactly `"L1\nL2\nL3x\nL4x\nL5\n"`. -/
theorem concrete_chunk_and_patch :
    (Chunker.chunkDoc ⟨"doc1", "L1\nL2\nL3\nL4\nL5\n", 0⟩ 2 0).map
        (fun c => (c.start_line, c.end_line)) = [(1, 2), (3, 4), (5, 5)] ∧
    DiffEngine.make_diff_text "L1\nL2\nL3\nL4\nL5\n" "L1\nL2\nL3x\nL4x\nL5\n" =
      [⟨2, ["L3", "L4"], ["L3x", "L4x"]⟩] ∧
    DiffEngine.apply_text "L1\nL2\nL3\nL4\nL5\n"
        (DiffEngine.make_diff_text "L1\nL2\nL3\nL4\nL5\n" "L1\nL2\nL3x\nL4x\nL5\n") =
      Except.ok "L1\nL2\nL3x\nL4x\nL5\n" :=
  ⟨by decide, by decide, rfl⟩

namespace Frontend

theorem handleFiles_posts_spec (postErr : String → Option String) :
    ∀ (files : List String) (req : PostRequest),
      req ∈ (handleFiles postErr files).2 →
      strEnds req.filename ".md" = true ∧
      req.endpoint = "/ingest/upload" ∧
      req.fileType =
        (if containsSub req.filename "codex" then "codex" else "manuscript") := by
  intro files
  induction files with
  | nil => intro req h; simp [handleFiles] at h
  | cons name rest ih =>
    intro req h
    simp only [handleFiles] at h
    by_cases hmd : strEnds name ".md" = true
    · simp only [hmd, if_true, List.mem_cons] at h
      rcases h with rfl | h
      · exact ⟨hmd, rfl, rfl⟩
      · exact ih req h
    · simp only [Bool.not_eq_true] at hmd
      simp only [hmd, Bool.false_eq_true, if_false] at h
      exact ih req h

end Frontend

/-- C10: ingest upload gate: a file whose name does not end in `.md` gets an
error result with message "Only .md files are supported" and is never posted
to the ingest endpoint; a `.md` file is posted to `/ingest/upload` with
`file_type` `'codex'` when its name contains "codex" and `'manuscript'`
otherwise. -/
theorem upload_gate (postErr : String → Option String) (files : List String)
    (name : String) (hmem : name ∈ files) :
    (strEnds name ".md" = false →
      (⟨name, Frontend.UploadStatus.error, "Only .md files are supported"⟩ :
          Frontend.UploadResult) ∈ (Frontend.handleFiles postErr files).1 ∧
      ∀ req ∈ (Frontend.handleFiles postErr files).2, req.filename ≠ name) ∧
    (strEnds name ".md" = true →
      (⟨"/ingest/upload", name,
          if containsSub name "codex" then "codex" else "manuscript"⟩ :
          Frontend.PostRequest) ∈ (Frontend.handleFiles postErr files).2) := by
  constructor
  · intro hnot
    constructor
    · induction files with
      | nil => simp at hmem
      | cons hd rest ih =>
        simp only [Frontend.handleFiles]
        rcases List.mem_cons.mp hmem with rfl | htail
        · simp [hnot]
        · by_cases hmd : strEnds hd ".md" = true
          · simp only [hmd, if_true, List.mem_cons]
            right
            exact ih htail
          · simp only [Bool.not_eq_true] at hmd
            simp only [hmd, Bool.false_eq_true, if_false, List.mem_cons]
            exact Or.inr (ih htail)
    · intro req hreq
      have hspec := Frontend.handleFiles_posts_spec postErr files req hreq
      intro heq
      rw [heq] at hspec
      rw [hspec.1] at hnot
      exact Bool.true_eq_false.mp hnot
  · intro hmd
    induction files with
    | nil => simp at hmem
    | cons hd rest ih =>
      simp only [Frontend.handleFiles]
      rcases List.mem_cons.mp hmem with rfl | htail
      · simp [hmd]
      · by_cases hmd2 : strEnds hd ".md" = true
        · simp only [hmd2, if_true, List.mem_cons]
          exact Or.inr (ih htail)
        · simp only [Bool.not_eq_true] at hmd2
          simp only [hmd2, Bool.false_eq_true, if_false]
          exact ih htail

/-- Witness for C10 at a concrete file list. -/
theorem upload_gate_witness :
    (⟨"notes.txt", Frontend.UploadStatus.error, "Only .md files are supported"⟩ :
        Frontend.UploadResult) ∈
      (Frontend.handleFiles (fun _ => none) ["notes.txt", "my codex.md"]).1 :=
  ((upload_gate (fun _ => none) ["notes.txt", "my codex.md"] "notes.txt"
    (by decide)).1 (by decide)).1

namespace Frontend

theorem stepChange_eq (acc : List Change) (line : String) :
    stepChange acc line = acc ++ (classifyLine line).toList := by
  unfold stepChange classifyLine
  repeat' split
  all_goals simp_all

theorem foldl_stepChange :
    ∀ (lines : List String) (acc : List Change),
      lines.foldl stepChange acc = acc ++ lines.filterMap classifyLine := by
  intro lines
  induction lines with
  | nil => intro acc; simp
  | cons l ls ih =>
    intro acc
    simp only [List.foldl_cons, stepChange_eq, List.filterMap_cons]
    cases h : classifyLine l <;> simp [h, ih]

theorem rowType_equal_iff (a b : String) :
    rowType a b = RowType.equal ↔ a = b := by
  unfold rowType
  repeat' split
  all_goals simp_all

theorem rowType_modify_iff (a b : String) :
    rowType a b = RowType.modify ↔ a ≠ "" ∧ b ≠ "" ∧ a ≠ b := by
  unfold rowType
  repeat' split
  all_goals simp_all

theorem rowType_delete_iff (a b : String) :
    rowType a b = RowType.delete ↔ a ≠ "" ∧ b = "" := by
  unfold rowType
  repeat' split
  all_goals simp_all

theorem rowType_add_iff (a b : String) :
    rowType a b = RowType.add ↔ a = "" ∧ b ≠ "" := by
  unfold rowType
  repeat' split
  all_goals simp_all
  all_goals tauto

theorem generateSideBySide_getD (o m : String) (i : Nat) :
    (generateSideBySide o m).getD i ⟨"", "", RowType.equal⟩ =
      ⟨(splitOnChar '\n' o).getD i "", (splitOnChar '\n' m).getD i "",
        rowType ((splitOnChar '\n' o).getD i "") ((splitOnChar '\n' m).getD i "")⟩ := by
  by_cases h : i < max (splitOnChar '\n' o).length (splitOnChar '\n' m).length
  · have hsome : (generateSideBySide o m)[i]? =
        some ⟨(splitOnChar '\n' o).getD i "", (splitOnChar '\n' m).getD i "",
          rowType ((splitOnChar '\n' o).getD i "") ((splitOnChar '\n' m).getD i "")⟩ := by
      simp only [generateSideBySide, List.getElem?_map, List.getElem?_range h]
      rfl
    rw [List.getD_eq_getElem?_getD, hsome]
    rfl
  · have hnone : (generateSideBySide o m)[i]? = none := by
      simp only [generateSideBySide]
      exact List.getElem?_eq_none
        (by simpa [List.length_range] using Nat.le_of_not_lt h)
    have hls : (splitOnChar '\n' o).getD i "" = "" :=
      List.getD_eq_default _ _
        (Nat.le_trans (Nat.le_max_left _ _) (Nat.le_of_not_lt h))
    have hrs : (splitOnChar '\n' m).getD i "" = "" :=
      List.getD_eq_default _ _
        (Nat.le_trans (Nat.le_max_right _ _) (Nat.le_of_not_lt h))
    rw [List.getD_eq_getElem?_getD, hnone, hls, hrs, rowType_self]
    rfl

end Frontend

/-- C8: unified-diff parser classification: `parseDiff` is exactly the
per-line classification (skip `+++`/`---`/`@@` headers; `+`, `-`, space
lines become add/remove/context entries carrying the line minus its first
character; every other line is dropped) applied across the newline-split
input, so its output is never longer than the number of input lines. -/
theorem parseDiff_classification (s : String) :
    Frontend.parseDiff s =
      (StringOps.splitOnChar '\n' s).filterMap Frontend.classifyLine ∧
    (Frontend.parseDiff s).length ≤ (StringOps.splitOnChar '\n' s).length := by
  have h : Frontend.parseDiff s =
      (StringOps.splitOnChar '\n' s).filterMap Frontend.classifyLine := by
    simpa using Frontend.foldl_stepChange (StringOps.splitOnChar '\n' s) []
  exact ⟨h, h ▸ List.length_filterMap_le _ _⟩

/-- C9: side-by-side alignment is purely positional: `generateSideBySide`
returns exactly `max` of the two line counts rows; row `i` pairs line `i` of
each text (empty string past the end) and is typed `equal` iff the two
strings are identical, `modify` iff both are non-empty and differ, `delete`
iff only the left is non-empty, and `add` iff only the right is
non-empty. -/
theorem sideBySide_positional (o m : String) (i : Nat) :
    (Frontend.generateSideBySide o m).length =
      max (StringOps.splitOnChar '\n' o).length (StringOps.splitOnChar '\n' m).length ∧
    ((Frontend.generateSideBySide o m).getD i ⟨"", "", Frontend.RowType.equal⟩).left =
      (StringOps.splitOnChar '\n' o).getD i "" ∧
    ((Frontend.generateSideBySide o m).getD i ⟨"", "", Frontend.RowType.equal⟩).right =
      (StringOps.splitOnChar '\n' m).getD i "" ∧
    (((Frontend.generateSideBySide o m).getD i ⟨"", "", Frontend.RowType.equal⟩).type =
        Frontend.RowType.equal ↔
      (StringOps.splitOnChar '\n' o).getD i "" = (StringOps.splitOnChar '\n' m).getD i "") ∧
    (((Frontend.generateSideBySide o m).getD i ⟨"", "", Frontend.RowType.equal⟩).type =
        Frontend.RowType.modify ↔
      (StringOps.splitOnChar '\n' o).getD i "" ≠ "" ∧
      (StringOps.splitOnChar '\n' m).getD i "" ≠ "" ∧
      (StringOps.splitOnChar '\n' o).getD i "" ≠ (StringOps.splitOnChar '\n' m).getD i "") ∧
    (((Frontend.generateSideBySide o m).getD i ⟨"", "", Frontend.RowType.equal⟩).type =
        Frontend.RowType.delete ↔
      (StringOps.splitOnChar '\n' o).getD i "" ≠ "" ∧
      (StringOps.splitOnChar '\n' m).getD i "" = "") ∧
    (((Frontend.generateSideBySide o m).getD i ⟨"", "", Frontend.RowType.equal⟩).type =
        Frontend.RowType.add ↔
      (StringOps.splitOnChar '\n' o).getD i "" = "" ∧
      (StringOps.splitOnChar '\n' m).getD i "" ≠ "") := by
  refine ⟨by simp [Frontend.generateSideBySide], ?_⟩
  rw [Frontend.generateSideBySide_getD]
  exact ⟨rfl, rfl, Frontend.rowType_equal_iff _ _, Frontend.rowType_modify_iff _ _,
    Frontend.rowType_delete_iff _ _, Frontend.rowType_add_iff _ _⟩

namespace DiffEngine

theorem commonPrefixLen_le_left :
    ∀ as bs : List String, commonPrefixLen as bs ≤ as.length := by
  intro as
  induction as with
  | nil => intro bs; cases bs <;> simp [commonPrefixLen]
  | cons a as ih =>
    intro bs
    cases bs with
    | nil => simp [commonPrefixLen]
    | cons b bs =>
      by_cases h : a = b <;> simp [commonPrefixLen, h]
      exact ih bs

theorem commonPrefixLen_le_right :
    ∀ as bs : List String, commonPrefixLen as bs ≤ bs.length := by
  intro as
  induction as with
  | nil => intro bs; cases bs <;> simp [commonPrefixLen]
  | cons a as ih =>
    intro bs
    cases bs with
    | nil => simp [commonPrefixLen]
    | cons b bs =>
      by_cases h : a = b <;> simp [commonPrefixLen, h]
      exact ih bs

theorem take_commonPrefixLen :
    ∀ as bs : List String,
      as.take (commonPrefixLen as bs) = bs.take (commonPrefixLen as bs) := by
  intro as
  induction as with
  | nil => intro bs; cases bs <;> simp [commonPrefixLen]
  | cons a as ih =>
    intro bs
    cases bs with
    | nil => simp [commonPrefixLen]
    | cons b bs =>
      by_cases h : a = b <;> simp [commonPrefixLen, h]
      exact ih bs

theorem commonSuffixLen_le_left (as bs : List String) :
    commonSuffixLen as bs ≤ as.length := by
  simpa [commonSuffixLen] using commonPrefixLen_le_left as.reverse bs.reverse

theorem commonSuffixLen_le_right (as bs : List String) :
    commonSuffixLen as bs ≤ bs.length := by
  simpa [commonSuffixLen] using commonPrefixLen_le_right as.reverse bs.reverse

theorem drop_commonSuffixLen (as bs : List String) :
    as.drop (as.length - commonSuffixLen as bs) =
      bs.drop (bs.length - commonSuffixLen as bs) := by
  have h := take_commonPrefixLen as.reverse bs.reverse
  have h2 := congrArg List.reverse h
  rw [List.reverse_take, List.reverse_take, List.reverse_reverse, List.reverse_reverse,
    List.length_reverse, List.length_reverse] at h2
  simpa [commonSuffixLen] using h2

theorem apply_single (content : List String) (p : Nat) (olds news : List String)
    (hanchor : (content.drop p).take olds.length = olds) :
    apply content [⟨p, olds, news⟩] =
      Except.ok (content.take p ++ news ++ content.drop (p + olds.length)) := by
  simp only [apply, applyHunk, locateHunk, sliceAt, hanchor, if_true, Except.map]
  rfl

end DiffEngine

namespace DiffEngine

theorem drop_of_take_eq_nil {l : List String} {k : Nat} (h : l.take k = []) :
    l.drop k = l := by
  rcases List.take_eq_nil_iff.mp h with h0 | hl
  · simp [h0]
  · simp [hl]

theorem splice_eq (o r : List String) (p s : Nat)
    (hpo : o.take p = r.take p)
    (hsuf : (o.drop p).drop ((o.drop p).length - s) =
      (r.drop p).drop ((r.drop p).length - s)) :
    o.take p ++ ((r.drop p).take ((r.drop p).length - s) ++
      o.drop (p + ((o.drop p).length - s))) = r := by
  have h1 : o.drop (p + ((o.drop p).length - s)) =
      (o.drop p).drop ((o.drop p).length - s) := by
    rw [List.drop_drop]
  rw [h1, hsuf, hpo]
  rw [List.take_append_drop]
  exact List.take_append_drop p r

end DiffEngine

/-- C2: Diff round-trip: applying the diff produced by
`make_diff(original, revised)` to `original` succeeds and returns exactly
`revised`, for every pair of texts (texts represented by their line
sequences, the unit unified diffs operate on). -/
theorem diff_round_trip (o r : List String) :
    DiffEngine.apply o (DiffEngine.make_diff o r) = Except.ok r := by
  simp only [DiffEngine.make_diff]
  split
  · -- both the removed and the inserted region are empty: o = r
    rename_i h
    obtain ⟨h1, h2⟩ := h
    have hA := DiffEngine.drop_of_take_eq_nil h1
    have hB := DiffEngine.drop_of_take_eq_nil h2
    have hsuf := DiffEngine.drop_commonSuffixLen
      (o.drop (DiffEngine.commonPrefixLen o r)) (r.drop (DiffEngine.commonPrefixLen o r))
    rw [hA, hB] at hsuf
    have ho : o = r := by
      have := DiffEngine.take_commonPrefixLen o r
      calc o = o.take (DiffEngine.commonPrefixLen o r) ++
          o.drop (DiffEngine.commonPrefixLen o r) := (List.take_append_drop _ _).symm
        _ = r.take (DiffEngine.commonPrefixLen o r) ++
          r.drop (DiffEngine.commonPrefixLen o r) := by rw [this, hsuf]
        _ = r := List.take_append_drop _ _
    simp [DiffEngine.apply, ho]
  · -- a single hunk replacing the changed middle region
    set p := DiffEngine.commonPrefixLen o r with hp
    set A := o.drop p with hA
    set B := r.drop p with hB
    set s := DiffEngine.commonSuffixLen A B with hs
    have holdslen : (A.take (A.length - s)).length = A.length - s := by
      rw [List.length_take]
      exact Nat.min_eq_left (Nat.sub_le _ _)
    have hanchor : (o.drop p).take (A.take (A.length - s)).length =
        A.take (A.length - s) := by
      rw [holdslen, ← hA]
    rw [DiffEngine.apply_single o p (A.take (A.length - s)) (B.take (B.length - s))
      hanchor]
    rw [holdslen]
    rw [List.append_assoc]
    rw [DiffEngine.splice_eq o r p s (DiffEngine.take_commonPrefixLen o r)
      (DiffEngine.drop_commonSuffixLen A B)]

namespace DiffEngine

theorem apply_append (content : List String) (d₁ d₂ : List Hunk) :
    apply content (d₁ ++ d₂) =
      match apply content d₁ with
      | Except.ok c => apply c d₂
      | Except.error e => Except.error e := by
  induction d₁ generalizing content with
  | nil => simp [apply]
  | cons h hs ih =>
    simp only [List.cons_append, apply]
    cases hh : applyHunk content h with
    | ok c => simp [hh, ih c, Bind.bind, Except.bind]
    | error e => simp [hh, Bind.bind, Except.bind]

end DiffEngine

/-- C3: Patch application is all-or-nothing: whenever `apply` fails (in
particular whenever some hunk of the diff cannot be located, exactly or
fuzzily above the similarity threshold, in the content produced by the hunks
before it), the whole application fails with that error and the document is
left completely unchanged — no subset of the diff's hunks is ever
applied. -/
theorem apply_all_or_nothing (doc : DiffEngine.Document) (d : DiffEngine.Diff) :
    (∀ e, (DiffEngine.applyToDocument doc d).2 = Except.error e →
      (DiffEngine.applyToDocument doc d).1 = doc) ∧
    (∀ (hs₁ : List DiffEngine.Hunk) (h : DiffEngine.Hunk)
        (hs₂ : List DiffEngine.Hunk) (mid : List String) (e : DiffEngine.PatchError),
      d = hs₁ ++ h :: hs₂ →
      DiffEngine.apply (StringOps.splitOnChar '\n' doc.raw_text) hs₁ = Except.ok mid →
      DiffEngine.locateHunk mid h = Except.error e →
      (DiffEngine.applyToDocument doc d).2 = Except.error e ∧
      (DiffEngine.applyToDocument doc d).1 = doc) := by
  constructor
  · intro e herr
    unfold DiffEngine.applyToDocument at herr ⊢
    cases happly : DiffEngine.apply_text doc.raw_text d with
    | ok t =>
      rw [happly] at herr
      simp at herr
    | error e2 => rfl
  · intro hs₁ h hs₂ mid e hd hmid hloc
    have hfail : DiffEngine.apply_text doc.raw_text d = Except.error e := by
      unfold DiffEngine.apply_text
      rw [hd, DiffEngine.apply_append, hmid]
      simp only [DiffEngine.apply, DiffEngine.applyHunk, hloc, Except.map_error,
        Bind.bind, Except.bind]
      rfl
    unfold DiffEngine.applyToDocument
    rw [hfail]
    exact ⟨rfl, rfl⟩

/-- Witness for C3 at a concrete un-anchorable hunk. -/
theorem apply_all_or_nothing_witness :
    (DiffEngine.applyToDocument ⟨"d", "A\nB", 0⟩ [⟨0, ["ZZZ"], ["Q"]⟩]).2 =
      Except.error DiffEngine.PatchError.anchorNotFound ∧
    (DiffEngine.applyToDocument ⟨"d", "A\nB", 0⟩ [⟨0, ["ZZZ"], ["Q"]⟩]).1 =
      ⟨"d", "A\nB", 0⟩ :=
  (apply_all_or_nothing ⟨"d", "A\nB", 0⟩ [⟨0, ["ZZZ"], ["Q"]⟩]).2 []
    ⟨0, ["ZZZ"], ["Q"]⟩ [] ["A", "B"] DiffEngine.PatchError.anchorNotFound rfl rfl
    rfl

namespace Chunker

theorem chunkDoc_text (doc : DiffEngine.Document) (mt st : Nat) (c : Chunk)
    (hc : c ∈ chunkDoc doc mt st) :
    c.document_id = doc.id ∧
    c.text = sliceLines (docLines doc.raw_text) c.start_line c.end_line := by
  simp only [chunkDoc, List.mem_map] at hc
  obtain ⟨⟨idx, r⟩, _, rfl⟩ := hc
  exact ⟨rfl, rfl⟩

end Chunker

namespace RAG

theorem mem_upsert {recs : List IndexRecord} {r x : IndexRecord}
    (hx : x ∈ upsert recs r) : x = r ∨ x ∈ recs := by
  unfold upsert at hx
  split at hx
  · rcases List.mem_map.mp hx with ⟨y, hy, hxy⟩
    by_cases h : y.id = r.id
    · rw [if_pos h] at hxy
      exact Or.inl hxy.symm
    · rw [if_neg h] at hxy
      exact Or.inr (hxy ▸ hy)
  · rcases List.mem_append.mp hx with h | h
    · exact Or.inr h
    · exact Or.inl (List.mem_singleton.mp h)

theorem mem_foldl_upsert (embedder : String → List Int) :
    ∀ (cs : List Chunker.Chunk) (acc : List IndexRecord) (x : IndexRecord),
      x ∈ cs.foldl (fun recs c => upsert recs (recordOf embedder c)) acc →
      x ∈ acc ∨ ∃ c ∈ cs, x = recordOf embedder c := by
  intro cs
  induction cs with
  | nil => intro acc x hx; exact Or.inl hx
  | cons c cs ih =>
    intro acc x hx
    simp only [List.foldl_cons] at hx
    rcases ih _ x hx with hacc | ⟨c', hc', rfl⟩
    · rcases mem_upsert hacc with rfl | hmem
      · exact Or.inr ⟨c, List.mem_cons_self _ _, rfl⟩
      · exact Or.inl hmem
    · exact Or.inr ⟨c', List.mem_cons_of_mem _ hc', rfl⟩

theorem mem_buildIndex (embedder : String → List Int) (mt st : Nat) :
    ∀ (docs : List DiffEngine.Document) (acc : List IndexRecord) (x : IndexRecord),
      x ∈ docs.foldl
        (fun recs doc =>
          (Chunker.chunkDoc doc mt st).foldl
            (fun recs c => upsert recs (recordOf embedder c)) recs) acc →
      x ∈ acc ∨
        ∃ doc ∈ docs, ∃ c ∈ Chunker.chunkDoc doc mt st, x = recordOf embedder c := by
  intro docs
  induction docs with
  | nil => intro acc x hx; exact Or.inl hx
  | cons doc docs ih =>
    intro acc x hx
    simp only [List.foldl_cons] at hx
    rcases ih _ x hx with hacc | ⟨doc', hdoc', c, hc, rfl⟩
    · rcases mem_foldl_upsert embedder _ _ _ hacc with hmem | ⟨c, hc, rfl⟩
      · exact Or.inl hmem
      · exact Or.inr ⟨doc, List.mem_cons_self _ _, c, hc, rfl⟩
    · exact Or.inr ⟨doc', List.mem_cons_of_mem _ hdoc', c, hc, rfl⟩

theorem mem_insertDesc {x y : IndexRecord × Int} :
    ∀ {l : List (IndexRecord × Int)}, y ∈ insertDesc x l → y = x ∨ y ∈ l := by
  intro l
  induction l with
  | nil => intro h; exact Or.inl (List.mem_singleton.mp h)
  | cons z zs ih =>
    intro h
    unfold insertDesc at h
    split at h
    · rcases List.mem_cons.mp h with rfl | h2
      · exact Or.inl rfl
      · exact Or.inr h2
    · rcases List.mem_cons.mp h with rfl | h2
      · exact Or.inr (List.mem_cons_self _ _)
      · rcases ih h2 with rfl | h3
        · exact Or.inl rfl
        · exact Or.inr (List.mem_cons_of_mem _ h3)

theorem mem_sortDesc {y : IndexRecord × Int} :
    ∀ {l : List (IndexRecord × Int)}, y ∈ sortDesc l → y ∈ l := by
  intro l
  induction l with
  | nil => intro h; exact h
  | cons z zs ih =>
    intro h
    unfold sortDesc at h
    rcases mem_insertDesc h with rfl | h2
    · exact List.mem_cons_self _ _
    · exact List.mem_cons_of_mem _ (ih h2)

theorem mem_query {recs : List IndexRecord} {qv : List Int} {k : Nat}
    {f : Option String} {y : IndexRecord × Int} (hy : y ∈ query recs qv k f) :
    ∃ rec ∈ recs, y = (rec, dot qv rec.vector) := by
  unfold query at hy
  have hy2 := mem_sortDesc (List.mem_of_mem_take hy)
  rcases List.mem_map.mp hy2 with ⟨rec, hrec, rfl⟩
  refine ⟨rec, ?_, rfl⟩
  cases f with
  | none => exact hrec
  | some d => exact (List.mem_filter.mp hrec).1

end RAG

/-- C1: Receipt provenance round-trip: every Receipt returned by `retrieve`
over an index built from a document set cites a real document of that set,
and re-slicing that document at the Receipt's `(start_line, end_line)`
yields text exactly equal to the Receipt's `text` field. -/
theorem receipt_provenance (embedder : String → List Int) (mt st : Nat)
    (docs : List DiffEngine.Document) (q : String) (k : Nat) (f : Option String)
    (rcpt : RAG.Receipt)
    (hr : rcpt ∈ RAG.retrieve embedder q k f (RAG.buildIndex embedder mt st docs)) :
    ∃ doc, doc ∈ docs ∧ rcpt.document_id = doc.id ∧
      Chunker.sliceLines (Chunker.docLines doc.raw_text)
        rcpt.start_line rcpt.end_line = rcpt.text := by
  unfold RAG.retrieve at hr
  rcases List.mem_map.mp hr with ⟨⟨r0, sc⟩, hq, rfl⟩
  rcases RAG.mem_query hq with ⟨r1, hr1, heq⟩
  have hfst : r0 = r1 := congrArg Prod.fst heq
  subst hfst
  rcases RAG.mem_buildIndex embedder mt st docs [] r0 hr1 with hnil | ⟨doc, hdoc, c, hc, hrec⟩
  · simp at hnil
  · obtain ⟨hid, htext⟩ := Chunker.chunkDoc_text doc mt st c hc
    subst hrec
    exact ⟨doc, hdoc, hid, by simp [RAG.recordOf, htext]⟩

/-- Witness for C1 at a concrete two-chunk index. -/
theorem receipt_provenance_witness :
    ∃ doc, doc ∈ [(⟨"d1", "A B\nC D", 0⟩ : DiffEngine.Document)] ∧
      (⟨"C D", "d1", 2, 2, 1⟩ : RAG.Receipt).document_id = doc.id ∧
      Chunker.sliceLines (Chunker.docLines doc.raw_text)
        (⟨"C D", "d1", 2, 2, 1⟩ : RAG.Receipt).start_line
        (⟨"C D", "d1", 2, 2, 1⟩ : RAG.Receipt).end_line =
        (⟨"C D", "d1", 2, 2, 1⟩ : RAG.Receipt).text :=
  receipt_provenance (fun _ => [1]) 2 0 [⟨"d1", "A B\nC D", 0⟩] "x" 5 none
    ⟨"C D", "d1", 2, 2, 1⟩ (by decide)
